import Mathlib

/-!
Verification development for the bitpit octree-mesh core.

The C++ sources are shallowly embedded below.  Floating-point `double`
arithmetic is modelled by exact rational arithmetic (`ℚ`); numeric literals
such as `1e-14` are taken at their decimal value.  The C library `sqrt` is
modelled by `ratSqrt`, which agrees with the exact square root whenever the
argument's numerator and denominator are perfect squares; all concrete
evaluations below only take square roots of such rationals.  Out-parameters
of C++ functions are modelled by explicit state passing: a function that may
write `x` receives the incoming value of `x` and returns the outgoing one.
-/

namespace Bitpit

/-- A `std::array<double,3>` from `CG_elem.cpp`, with `double` modelled as ℚ. -/
structure Arr3 where
  x : ℚ
  y : ℚ
  z : ℚ
deriving DecidableEq, Repr

instance : Add Arr3 := ⟨fun a b => ⟨a.x + b.x, a.y + b.y, a.z + b.z⟩⟩

instance : Sub Arr3 := ⟨fun a b => ⟨a.x - b.x, a.y - b.y, a.z - b.z⟩⟩

instance : SMul ℚ Arr3 := ⟨fun c a => ⟨c * a.x, c * a.y, c * a.z⟩⟩

instance : Neg Arr3 := ⟨fun a => ⟨-a.x, -a.y, -a.z⟩⟩

/-- Component access `v[d]` for `d = 0,1,2`, as used by the loops of
`CG_elem.cpp` that iterate over coordinate directions. -/
def Arr3.get (v : Arr3) : Nat → ℚ
  | 0 => v.x
  | 1 => v.y
  | _ => v.z

/-- The `dotProduct` operator of `bitpit_operators.hpp`. -/
def dotProduct (a b : Arr3) : ℚ :=
  a.x * b.x + a.y * b.y + a.z * b.z

/-- Model of the C library `sqrt` on rationals: exact whenever the argument
is non-negative with numerator and denominator perfect squares — the only
values at which the development evaluates it. -/
def ratSqrt (q : ℚ) : ℚ :=
  (Nat.sqrt q.num.natAbs : ℚ) / (Nat.sqrt q.den : ℚ)

/-- The `norm2` operator of `bitpit_operators.hpp`: Euclidean norm. -/
def norm2 (a : Arr3) : ℚ :=
  ratSqrt (dotProduct a a)

/-- Squared Euclidean distance between two points.  Comparing squared
distances orders points exactly as comparing distances does, so minimality
statements below are phrased with `sqDist`. -/
def sqDist (a b : Arr3) : ℚ :=
  dotProduct (a - b) (a - b)

/-- `reconstructPointFromBarycentricSegment` (CG_elem.cpp:151):
`lambda[0]*Q0 + lambda[1]*Q1`. -/
def reconstructPointFromBarycentricSegment (Q0 Q1 : Arr3) (l0 l1 : ℚ) : Arr3 :=
  l0 • Q0 + l1 • Q1

/-- `projectPointSegment` (CG_elem.cpp:258): computes
`t = -dot(n, Q0-P)/dot(n,n)` for `n = Q1 - Q0`, clamps `t` to `[0,1]`
via `t = max(min(t,1),0)`, sets `lambda = (1-t, t)` and returns the
reconstructed point together with the barycentric coordinates. -/
def projectPointSegment (P Q0 Q1 : Arr3) : Arr3 × ℚ × ℚ :=
  let n := Q1 - Q0
  let t0 := -(dotProduct n (Q0 - P)) / dotProduct n n
  let t := max (min t0 1) 0
  (reconstructPointFromBarycentricSegment Q0 Q1 (1 - t) t, 1 - t, t)

/-- `projectPointLine` (CG_elem.cpp:207). -/
def projectPointLine (P Q n : Arr3) : Arr3 :=
  Q + (dotProduct (P - Q) n) • n

/-- `distancePointLine` (CG_elem.cpp:616): returns the distance together
with the written out-parameter `xP`. -/
def distancePointLine (P Q n : Arr3) : ℚ × Arr3 :=
  let xP := projectPointLine P Q n
  (norm2 (P - xP), xP)

/-- `distanceLineLine` with projection out-parameters (CG_elem.cpp:1189):
returns `(distance, xP0, xP1)`; both out-parameters are written on every
path, so their incoming values are irrelevant. -/
def distanceLineLine (P0 n0 P1 n1 : Arr3) : ℚ × Arr3 × Arr3 :=
  let n01 := dotProduct n0 n1
  let det := 1 - n01 * n01
  if |det| < 1 / 10 ^ 12 then
    let r := distancePointLine P0 P1 n1
    let xP0 := projectPointLine r.2 P0 n0
    (r.1, xP0, r.2)
  else
    let dP := P1 - P0
    let rhs0 := dotProduct dP n0
    let rhs1 := -(dotProduct dP n1)
    let det0 := rhs0 + rhs1 * n01
    let det1 := rhs1 + rhs0 * n01
    let s0 := det0 / det
    let s1 := det1 / det
    let xP0 := P0 + s0 • n0
    let xP1 := P1 + s1 • n1
    (norm2 (xP0 - xP1), xP0, xP1)

/-- `intersectLineLine` (CG_elem.cpp:1227): the out-parameter `P` is written
(with the first line's projection point) exactly when the supporting lines
are closer than the tolerance. -/
def intersectLineLine (P1 n1 P2 n2 : Arr3) (P : Arr3) : Bool × Arr3 :=
  let r := distanceLineLine P1 n1 P2 n2
  if r.1 < 1 / 10 ^ 12 then (true, r.2.1) else (false, P)

/-- `intersectSegmentSegment` (CG_elem.cpp:1255).  The caller's out-parameter
`x` is handed directly to `intersectLineLine`, so it is overwritten whenever
the supporting lines intersect — including the path where the in-segment
check then fails and the function returns `false`. -/
def intersectSegmentSegment (P1 P2 Q1 Q2 : Arr3) (x : Arr3) : Bool × Arr3 :=
  let abs_tol : ℚ := 1 / 10 ^ 14
  let nP0 := P2 - P1
  let lP := norm2 nP0
  let nP := (1 / lP) • nP0
  let nQ0 := Q2 - Q1
  let lQ := norm2 nQ0
  let nQ := (1 / lQ) • nQ0
  let r := intersectLineLine P1 nP Q1 nQ x
  if r.1 then
    let lxP := dotProduct (r.2 - P1) nP
    let lxQ := dotProduct (r.2 - Q1) nQ
    if lxP ≤ lP + abs_tol ∧ lxP ≥ -abs_tol ∧ lxQ ≤ lQ + abs_tol ∧ lxQ ≥ -abs_tol then
      (true, r.2)
    else
      (false, r.2)
  else
    (false, r.2)

/-- `intersectLinePlane` (CG_elem.cpp:1311): the out-parameter `P` is
written only on the success path. -/
def intersectLinePlane (P1 n1 P2 n2 : Arr3) (P : Arr3) : Bool × Arr3 :=
  let tol : ℚ := 1 / 10 ^ 14
  let s := dotProduct n1 n2
  if |s| < tol then (false, P)
  else
    let xi := -(dotProduct (P1 - P2) n2) / s
    (true, P1 + xi • n1)

/-- `intersectPointSegment` (CG_elem.cpp:2038). -/
def intersectPointSegment (P P1 P2 : Arr3) : Bool :=
  let tol : ℚ := 1 / 10 ^ 14
  if norm2 (P - P2) ≤ tol then true
  else
    let n1 := P1 - P2
    let d1 := norm2 n1
    let n1 := (1 / d1) • n1
    let n2 := P - P2
    let d2 := norm2 n2
    let n2 := (1 / d2) • n2
    decide (dotProduct n1 n2 ≥ 1 - tol) && decide (d2 ≤ d1)

/-- `intersectSegmentPlane` (CG_elem.cpp:1349): the out-parameter `P` is
written only on the success path.  The intermediate `xP` is an uninitialised
local in C++ that is read only when `intersectLinePlane` returned `true`
(short-circuit `&&`), so passing a zero initial value is observationally
faithful. -/
def intersectSegmentPlane (Q1 Q2 P2 n2 : Arr3) (P : Arr3) : Bool × Arr3 :=
  let n0 := Q2 - Q1
  let n := (1 / norm2 n0) • n0
  let r := intersectLinePlane Q1 n P2 n2 ⟨0, 0, 0⟩
  if r.1 ∧ intersectPointSegment r.2 Q1 Q2 then (true, r.2) else (false, P)

/-- `computeAABBSegment` (CG_elem.cpp:2120). -/
def computeAABBSegment (A B : Arr3) : Arr3 × Arr3 :=
  (⟨min A.x B.x, min A.y B.y, min A.z B.z⟩, ⟨max A.x B.x, max A.y B.y, max A.z B.z⟩)

/-- `intersectBoxBox` predicate form (CG_elem.cpp:1564). -/
def intersectBoxBox (A1 A2 B1 B2 : Arr3) (dim : ℕ) : Bool :=
  (List.range dim).all fun d =>
    !(decide (B1.get d > A2.get d) || decide (B2.get d < A1.get d))

/-- Edge loop of the 2-D branch of `intersectSegmentBox` (CG_elem.cpp:1797):
the local `p` persists across iterations and is threaded through; a point is
pushed onto `P` exactly when `intersectSegmentSegment` returns `true`. -/
def segmentBoxLoop2D (edges : List (Arr3 × Arr3)) (V1 V2 : Arr3) (p : Arr3)
    (intersect : Bool) (P : List Arr3) : Bool × List Arr3 :=
  match edges with
  | [] => (intersect, P)
  | (E1, E2) :: rest =>
    let r := intersectSegmentSegment E1 E2 V1 V2 p
    if r.1 then segmentBoxLoop2D rest V1 V2 r.2 true (P ++ [r.2])
    else segmentBoxLoop2D rest V1 V2 r.2 intersect P

/-- `intersectSegmentBox` with intersection-point output, 2-D branch
(CG_elem.cpp:1771): the out-parameter list `P` is cleared unconditionally on
entry (`P.clear()`), before the bounding-box rejection test.  `edgeOfBox`
reads the box-edge connectivity table of `CG.hpp`, which is not among the
sources; the edge-endpoint function is therefore an explicit argument and
the theorems below hold for every choice of it. -/
def intersectSegmentBox2D (edgeOfBox : ℕ → Arr3 → Arr3 → Arr3 × Arr3)
    (V1 V2 A1 A2 : Arr3) (_P : List Arr3) : Bool × List Arr3 :=
  let P : List Arr3 := []
  let bb := computeAABBSegment V1 V2
  if !intersectBoxBox A1 A2 bb.1 bb.2 2 then (false, P)
  else
    let edges := (List.range 4).map fun i => edgeOfBox i A1 A2
    segmentBoxLoop2D edges V1 V2 ⟨0, 0, 0⟩ false P

/-- `subtractionAABB` (CG_elem.cpp:2291): relative complement of box `B` in
box `A`, written into the out-parameters `C0`, `C1` (whose incoming values
are taken as arguments).  The Y-direction branch is transcribed as in the
source, where the fallback bounds are `A0[2]` and `A1[2]`. -/
def subtractionAABB (A0 A1 B0 B1 C0 C1 : Arr3) : Arr3 × Arr3 :=
  let xcond := B0.y ≤ A0.y ∧ B0.z ≤ A0.z ∧ B1.y ≥ A1.y ∧ B1.z ≥ A1.z
  let C0 := if xcond then
    { C0 with x := if B0.x ≤ A0.x ∧ B1.x ≥ A0.x then B1.x else A0.x } else C0
  let C1 := if xcond then
    { C1 with x := if B0.x ≤ A1.x ∧ B1.x ≥ A1.x then B0.x else A1.x } else C1
  let ycond := B0.x ≤ A0.x ∧ B0.z ≤ A0.z ∧ B1.x ≥ A1.x ∧ B1.z ≥ A1.z
  let C0 := if ycond then
    { C0 with y := if B0.y ≤ A0.y ∧ B1.y ≥ A0.y then B1.y else A0.z } else C0
  let C1 := if ycond then
    { C1 with y := if B0.y ≤ A1.y ∧ B1.y ≥ A1.y then B0.y else A1.z } else C1
  let zcond := B0.x ≤ A0.x ∧ B0.y ≤ A0.y ∧ B1.x ≥ A1.x ∧ B1.y ≥ A1.y
  let C0 := if zcond then
    { C0 with z := if B0.z ≤ A0.z ∧ B1.z ≥ A0.z then B1.z else A0.z } else C0
  let C1 := if zcond then
    { C1 with z := if B0.z ≤ A1.z ∧ B1.z ≥ A1.z then B0.z else A1.z } else C1
  (C0, C1)

/-- Geometric state of a `VolOctree` patch as used by
`initializeTreeGeometry`, the `eval*` queries and `scale` (voloctree.cpp):
root edge length `m_tree.getL()`, maximum refinement level
`m_tree.getMaxLevel()`, the patch dimension, and the three per-level lookup
tables. -/
structure TreeGeometry where
  L : ℚ
  maxLevel : ℕ
  dim : ℕ
  tree_dh : List ℚ
  tree_area : List ℚ
  tree_volume : List ℚ
deriving Repr

/-- `VolOctree::initializeTreeGeometry` (voloctree.cpp:162): fills the three
tables with one entry per `i` in `[0, maxLevels)` where
`maxLevels = m_tree.getMaxLevel()`, using
`levelLength = length / 2^i` raised to the powers `1`, `dim - 1`, `dim`. -/
def initializeTreeGeometry (st : TreeGeometry) : TreeGeometry :=
  { st with
    tree_dh := (List.range st.maxLevel).map fun i => (st.L / 2 ^ i) ^ (1 : ℕ)
    tree_area := (List.range st.maxLevel).map fun i => (st.L / 2 ^ i) ^ (st.dim - 1)
    tree_volume := (List.range st.maxLevel).map fun i => (st.L / 2 ^ i) ^ st.dim }

/-- `VolOctree::evalCellSize` (voloctree.cpp:222): `m_tree_dh[level]` with
`level = getCellLevel(id)`.  The unchecked `std::vector` access is modelled
with `List.get?`; `none` marks an out-of-bounds read. -/
def evalCellSize (st : TreeGeometry) (level : ℕ) : Option ℚ :=
  st.tree_dh.get? level

/-- `VolOctree::evalCellVolume` (voloctree.cpp:189): `m_tree_volume[level]`. -/
def evalCellVolume (st : TreeGeometry) (level : ℕ) : Option ℚ :=
  st.tree_volume.get? level

/-- `VolOctree::evalInterfaceArea` (voloctree.cpp:235): `m_tree_area[level]`
with `level` the level of the interface's owner cell. -/
def evalInterfaceArea (st : TreeGeometry) (ownerLevel : ℕ) : Option ℚ :=
  st.tree_area.get? ownerLevel

/-- `VolOctree::scale` (voloctree.cpp:1471), transcribed as in the source:
`uniformScaling` is the conjunction of `|s0 - s1| > 1e-14` and
`|s0 - s2| > 1e-14`; if it is false the function returns without touching
the patch (the `assert` is inert in release builds), otherwise it multiplies
the root edge length by `scaling[0]` and rebuilds the level tables. -/
def scale (st : TreeGeometry) (scaling : Arr3) : TreeGeometry :=
  let uniformScaling : Bool :=
    decide ((1 : ℚ) / 10 ^ 14 < |scaling.x - scaling.y|) &&
    decide ((1 : ℚ) / 10 ^ 14 < |scaling.x - scaling.z|)
  if !uniformScaling then st
  else initializeTreeGeometry { st with L := st.L * scaling.x }

/-- State used by the marker functions of voloctree.cpp: the interior flag of
each cell (`m_cells[id].isInterior()`), the cell-to-octant and cell-to-ghost
maps (`m_cellToOctant.at` / `m_cellToGhost.at`, total functions on a
consistent patch), and the per-octant marker and balance data of the PABLO
tree written by `m_tree.setMarker` / `m_tree.setBalance`. -/
structure MarkerState where
  cellIsInterior : Int → Bool
  cellToOctant : Int → ℕ
  cellToGhost : Int → ℕ
  markers : ℕ → Int
  balanceFlags : ℕ → Bool

/-- Octant handle of a cell as in `VolOctree::OctantInfo`. -/
structure OctantRef where
  internal : Bool
  oid : ℕ
deriving Repr, DecidableEq

/-- `VolOctree::getCellOctant` (voloctree.cpp:264). -/
def getCellOctant (st : MarkerState) (id : Int) : OctantRef :=
  let internal := st.cellIsInterior id
  { internal := internal,
    oid := if internal then st.cellToOctant id else st.cellToGhost id }

/-- Pointwise function update, modelling a write to one tree entry. -/
def updFn {α β : Type} [DecidableEq α] (f : α → β) (k : α) (v : β) : α → β :=
  fun i => if i = k then v else f i

/-- `VolOctree::set_marker` (voloctree.cpp:1341): returns `false` untouched
for a non-interior cell, otherwise sets the octant's marker and returns
`true`. -/
def set_marker (st : MarkerState) (id : Int) (value : Int) : Bool × MarkerState :=
  let octantInfo := getCellOctant st id
  if !octantInfo.internal then (false, st)
  else (true, { st with markers := updFn st.markers octantInfo.oid value })

/-- `VolOctree::_markCellForRefinement` (voloctree.cpp:1320). -/
def _markCellForRefinement (st : MarkerState) (id : Int) : Bool × MarkerState :=
  set_marker st id 1

/-- `VolOctree::_markCellForCoarsening` (voloctree.cpp:1330). -/
def _markCellForCoarsening (st : MarkerState) (id : Int) : Bool × MarkerState :=
  set_marker st id (-1)

/-- `VolOctree::_enableCellBalancing` (voloctree.cpp:1359). -/
def _enableCellBalancing (st : MarkerState) (id : Int) (enabled : Bool) :
    Bool × MarkerState :=
  let octantInfo := getCellOctant st id
  if !octantInfo.internal then (false, st)
  else (true, { st with balanceFlags := updFn st.balanceFlags octantInfo.oid enabled })

/-- Index-tracking linear search shared by the `find*` member functions of
`Cell` (cell.cpp): returns the running index of the first hit, `-1` on
miss. -/
def findInRunAux (run : List Int) (target : Int) (i : ℕ) : Int :=
  match run with
  | [] => -1
  | a :: rest => if a = target then (i : Int) else findInRunAux rest target (i + 1)

/-- `Cell::findAdjacency(face, adjacency)` (cell.cpp:722) on one face run. -/
def findAdjacency (run : List Int) (adjacency : Int) : Int :=
  findInRunAux run adjacency 0

/-- `Cell::pushAdjacency` (cell.cpp:591): an id already present in the
face's run is refused, otherwise it is appended. -/
def pushAdjacency (run : List Int) (adjacency : Int) : List Int :=
  if findAdjacency run adjacency ≥ 0 then run else run ++ [adjacency]

/-- Whole-patch adjacency table: cell id and local face index to that
face's adjacency run. -/
abbrev AdjTable := Int → ℕ → List Int

/-- One `cell.pushAdjacency(face, neighId)` call lifted to the table. -/
def pushAdjacencyAt (adj : AdjTable) (cellId : Int) (face : ℕ) (neighId : Int) :
    AdjTable :=
  fun c f => if c = cellId ∧ f = face then pushAdjacency (adj c f) neighId else adj c f

/-- State threaded through the loops of `VolOctree::updateAdjacencies`: the
adjacency table and the `processedFaces` set (modelled as a list). -/
structure AdjLoopState where
  adj : AdjTable
  processed : List (Int × ℕ)

/-- Inner neighbour loop of `VolOctree::updateAdjacencies`
(voloctree.cpp:1294): for each neighbour, push the adjacency into the
current cell's face run and the mirrored adjacency into the neighbour's
opposite-face run, then record the neighbour face as processed.  `neighIds`
is the list `getOctantId(neighTreeIds[k], !neighGhostFlags[k])` obtained
from the PABLO query `m_tree.findNeighbours` / `findGhostNeighbours`, which
is not among the sources; it is an argument and the theorems below hold for
every value of it. -/
def updateAdjacenciesNeighLoop (oppositeFace : ℕ → ℕ) (cellId : Int) (face : ℕ)
    (neighIds : List Int) (st : AdjLoopState) : AdjLoopState :=
  match neighIds with
  | [] => st
  | neighId :: rest =>
    let adj1 := pushAdjacencyAt st.adj cellId face neighId
    let neighFace := oppositeFace face
    let adj2 := pushAdjacencyAt adj1 neighId neighFace cellId
    updateAdjacenciesNeighLoop oppositeFace cellId face rest
      { adj := adj2, processed := st.processed ++ [(neighId, neighFace)] }

/-- Face loop of `updateAdjacencies` (voloctree.cpp:1272): faces already in
`processedFaces` are skipped.  `oppositeFace` is the `oppface` table
obtained through `m_tree.getOppface` (PABLO); it is an argument, used under
the hypothesis that it is an involution, as the face pairing 0↔1, 2↔3, 4↔5
is. -/
def updateAdjacenciesFaceLoop (oppositeFace : ℕ → ℕ)
    (neighbours : Int → ℕ → List Int) (cellId : Int) (faces : List ℕ)
    (st : AdjLoopState) : AdjLoopState :=
  match faces with
  | [] => st
  | face :: rest =>
    let st1 :=
      if (cellId, face) ∈ st.processed then st
      else updateAdjacenciesNeighLoop oppositeFace cellId face
        (neighbours cellId face) st
    updateAdjacenciesFaceLoop oppositeFace neighbours cellId rest st1

/-- `VolOctree::updateAdjacencies` (voloctree.cpp:1237), serial form.
`cellIds` is the list of cells in the order of the hierarchical
per-tree-level sort of the source; `resetAdjacencies` is `false` at the
sync call site (voloctree.cpp:1038), so the initial table is the `st`
argument. -/
def updateAdjacencies (oppositeFace : ℕ → ℕ) (neighbours : Int → ℕ → List Int)
    (nCellFaces : ℕ) (cellIds : List Int) (st : AdjLoopState) : AdjLoopState :=
  match cellIds with
  | [] => st
  | cellId :: rest =>
    let st1 := updateAdjacenciesFaceLoop oppositeFace neighbours cellId
      (List.range nCellFaces) st
    updateAdjacencies oppositeFace neighbours nCellFaces rest st1

/-- Adjacency symmetry: `b ∈ adjacency(a, f)` iff `a ∈ adjacency(b, f')`
for the matching (opposite) face pair. -/
def AdjSymmetric (oppositeFace : ℕ → ℕ) (adj : AdjTable) : Prop :=
  ∀ a f b, b ∈ adj a f ↔ a ∈ adj b (oppositeFace f)

/-- No face's adjacency run contains the same cell id twice. -/
def AdjDupFree (adj : AdjTable) : Prop :=
  ∀ a f, (adj a f).Nodup

/-- The opposite-face pairing 0↔1, 2↔3, 4↔5 of `classGlobal::oppface`,
used to instantiate the adjacency theorems. -/
def oppFaceDemo : ℕ → ℕ :=
  fun f => if f % 2 = 0 then f + 1 else f - 1

/-- An explicit interface entity as read by `VolOctree::deleteCells`:
`Interface::isBorder / getOwner / getNeigh / getOwnerFace / getNeighFace`. -/
structure DCInterface where
  isBorder : Bool
  owner : Int
  neigh : Int
  ownerFace : ℕ
  neighFace : ℕ
deriving Repr, DecidableEq

/-- The cell data read and mutated by `deleteCells`: vertex connectivity and
the per-face interface and adjacency runs (the two `FlatVector2D` members of
`Cell`). -/
structure DCCell where
  connect : List Int
  interfaceRuns : List (List Int)
  adjacencyRuns : List (List Int)
deriving Repr, DecidableEq

/-- Value a `PiercedVector` lookup yields for an id that is not present; the
C++ access is undefined in that case and never taken on consistent inputs. -/
def emptyDCCell : DCCell := ⟨[], [], []⟩

/-- Default interface for an absent id (same caveat as `emptyDCCell`). -/
def emptyDCInterface : DCInterface := ⟨true, -1, -1, 0, 0⟩

/-- Association-list lookup, modelling id-keyed container access. -/
def alookup {β : Type} (m : List (Int × β)) (k : Int) : Option β :=
  (m.find? fun e => e.1 == k).map (·.2)

/-- Erase the entries with the given id. -/
def aerase {β : Type} (m : List (Int × β)) (k : Int) : List (Int × β) :=
  m.filter fun e => !(e.1 == k)

/-- Apply `f` to the entry with the given id. -/
def aupdate {β : Type} (m : List (Int × β)) (k : Int) (f : β → β) : List (Int × β) :=
  m.map fun e => if e.1 == k then (e.1, f e.2) else e

/-- `unordered_set<long>::insert`, modelled as an insertion-ordered
duplicate-free list. -/
def setInsert (s : List Int) (v : Int) : List Int :=
  if v ∈ s then s else s ++ [v]

/-- `unordered_set<long>::erase`. -/
def setErase (s : List Int) (v : Int) : List Int :=
  s.filter fun w => !(w == v)

/-- The stitch map `node morton → vertex id`; `unordered_map::insert` does
not overwrite an existing key. -/
def stitchInsert (s : List (ℕ × Int)) (e : ℕ × Int) : List (ℕ × Int) :=
  if s.any fun w => w.1 == e.1 then s else s ++ [e]

/-- The construction of the `deadCells` set (voloctree.cpp:1062): the ids of
the `deletedOctants` entries, deduplicated in insertion order. -/
def dedupIds (l : List Int) : List Int :=
  l.foldl setInsert []

/-- `Cell::findInterface(face, interface)` (cell.cpp:494) on one face
run. -/
def findInterface (run : List Int) (interfaceId : Int) : Int :=
  findInRunAux run interfaceId 0

/-- `FlatVector2D::eraseItem(face, i)`: remove the element at index `i` of a
run.  A negative index (only produced by a failed `find*`) is undefined in
C++ and modelled as a no-op. -/
def eraseItemAt (run : List Int) (i : Int) : List Int :=
  if i < 0 then run else run.eraseIdx i.toNat

/-- Modify the `n`-th element of a list in place. -/
def modifyAt {α : Type} (l : List α) (n : ℕ) (f : α → α) : List α :=
  match l, n with
  | [], _ => []
  | a :: rest, 0 => f a :: rest
  | a :: rest, n + 1 => a :: modifyAt rest n f

/-- Run of a face, `FlatVector2D::get(face)`. -/
def getRun (runs : List (List Int)) (face : ℕ) : List Int :=
  runs.getD face []

/-- The dangling-cell mutation of `deleteCells` (voloctree.cpp:1137): remove
the dead interface from the dangling face's interface run and the dead
neighbour id from its adjacency run.  The connectivity is untouched. -/
def removeDanglingLinks (cell : DCCell) (face : ℕ) (interfaceId neighId : Int) :
    DCCell :=
  let idxI := findInterface (getRun cell.interfaceRuns face) interfaceId
  let cell1 := { cell with
    interfaceRuns := modifyAt cell.interfaceRuns face fun r => eraseItemAt r idxI }
  let idxA := findAdjacency (getRun cell1.adjacencyRuns face) neighId
  { cell1 with
    adjacencyRuns := modifyAt cell1.adjacencyRuns face fun r => eraseItemAt r idxA }

/-- Loop state of the dead-cell pass of `deleteCells`: the (mutating) cell
container and the `deadVertices` / `deadInterfaces` / `danglingCells`
sets. -/
structure DeadLoopState where
  cells : List (Int × DCCell)
  deadVertices : List Int
  deadInterfaces : List Int
  danglingCells : List Int

/-- Dangling-side detection and the dangling-cell mutation for one
interface of a dead cell (voloctree.cpp:1104-1142): if exactly one side of a
non-border interface survives, that side's cell is recorded as dangling and
loses the dead interface and the dead neighbour id from the affected
face. -/
def danglingUpdate (deadCells : List Int) (iface : DCInterface)
    (interfaceId : Int) (st : DeadLoopState) : DeadLoopState :=
  let danglingSide : Int :=
    if !iface.isBorder then
      if iface.owner ∉ deadCells then 0
      else if iface.neigh ∉ deadCells then 1
      else -1
    else -1
  if danglingSide ≥ 0 then
    let danglingCellId := if danglingSide = 0 then iface.owner else iface.neigh
    let danglingNeighId := if danglingSide = 0 then iface.neigh else iface.owner
    let danglingCellFace :=
      if danglingSide = 0 then iface.ownerFace else iface.neighFace
    { st with
      cells := aupdate st.cells danglingCellId
        (fun c => removeDanglingLinks c danglingCellFace interfaceId danglingNeighId)
      danglingCells := setInsert st.danglingCells danglingCellId }
  else st

/-- Interface loop of the dead-cell pass (voloctree.cpp:1091-1146): skip
placeholders and seen interfaces, detect the dangling side, mutate the
dangling cell and record the interface as dead. -/
def processDeadInterfaces (patchInterfaces : List (Int × DCInterface))
    (deadCells : List Int) (ifaceIds : List Int) (st : DeadLoopState) :
    DeadLoopState :=
  match ifaceIds with
  | [] => st
  | interfaceId :: rest =>
    if interfaceId < 0 then
      processDeadInterfaces patchInterfaces deadCells rest st
    else if interfaceId ∈ st.deadInterfaces then
      processDeadInterfaces patchInterfaces deadCells rest st
    else
      let iface := (alookup patchInterfaces interfaceId).getD emptyDCInterface
      let st1 := danglingUpdate deadCells iface interfaceId st
      processDeadInterfaces patchInterfaces deadCells rest
        { st1 with deadInterfaces := setInsert st1.deadInterfaces interfaceId }

/-- Processing of one dead cell (voloctree.cpp:1072-1150): record all its
vertices as dead, walk its interfaces, then delete the cell. -/
def processDeadCell (patchInterfaces : List (Int × DCInterface))
    (deadCells : List Int) (cellId : Int) (st : DeadLoopState) : DeadLoopState :=
  let cell := (alookup st.cells cellId).getD emptyDCCell
  let st1 := { st with deadVertices := cell.connect.foldl setInsert st.deadVertices }
  let st2 := processDeadInterfaces patchInterfaces deadCells cell.interfaceRuns.join st1
  { st2 with cells := aerase st2.cells cellId }

/-- The dead-cell pass over the whole `deadCells` set (the `unordered_set`
iteration is modelled by the insertion-order list). -/
def processDeadCells (patchInterfaces : List (Int × DCInterface))
    (deadCells : List Int) (order : List Int) (st : DeadLoopState) : DeadLoopState :=
  match order with
  | [] => st
  | cellId :: rest =>
    processDeadCells patchInterfaces deadCells rest
      (processDeadCell patchInterfaces deadCells cellId st)

/-- Patch state consumed by `deleteCells`: the three containers and the
patch-level constants.  `nodeMorton` stands for
`m_tree.getNodeMorton(octant-of-cell, k)` (a PABLO query, keyed here by the
cell id) and `faceConnect` for `m_cellTypeInfo->faceConnect` (the element
registry); neither is among the sources, and the theorems hold for every
choice of them. -/
structure DCPatch where
  cells : List (Int × DCCell)
  interfaces : List (Int × DCInterface)
  vertices : List Int
  nodeMorton : Int → ℕ → ℕ
  nCellVertices : ℕ
  nInterfaceVertices : ℕ
  faceConnect : ℕ → List ℕ

/-- The dead-cell pass of `deleteCells` on a patch (voloctree.cpp:1062-1152),
starting from empty sets. -/
def deleteCellsPhase1 (patch : DCPatch) (deletedIds : List Int) : DeadLoopState :=
  processDeadCells patch.interfaces (dedupIds deletedIds) (dedupIds deletedIds)
    ⟨patch.cells, [], [], []⟩

/-- The interface container after the dead interfaces are deleted
(voloctree.cpp:1155-1159). -/
def deleteCellsInterfacesAfter (patch : DCPatch) (deletedIds : List Int) :
    List (Int × DCInterface) :=
  (deleteCellsPhase1 patch deletedIds).deadInterfaces.foldl
    (fun m k => aerase m k) patch.interfaces

/-- Reclaim state of the dangling-cell pass: the stitch map under
construction and the shrinking `deadVertices` set. -/
structure ReclaimState where
  stitch : List (ℕ × Int)
  deadVertices : List Int

/-- One vertex reclaim (voloctree.cpp:1183-1188 and 1214-1219): record the
stitch key and remove the vertex from `deadVertices`. -/
def reclaimVertexStep (vertexId : Int) (morton : ℕ) (acc : ReclaimState) :
    ReclaimState :=
  ⟨stitchInsert acc.stitch (morton, vertexId), setErase acc.deadVertices vertexId⟩

/-- Reclaim of the face vertices of one remaining interface of a dangling
cell (voloctree.cpp:1193-1220): placeholders and borders are skipped,
otherwise the owner's face-local vertices are reclaimed. -/
def reclaimIfaceStep (cells : List (Int × DCCell))
    (interfaces : List (Int × DCInterface)) (nodeMorton : Int → ℕ → ℕ)
    (nInterfaceVertices : ℕ) (faceConnect : ℕ → List ℕ) (acc : ReclaimState)
    (interfaceId : Int) : ReclaimState :=
  if interfaceId < 0 then acc
  else
    let iface := (alookup interfaces interfaceId).getD emptyDCInterface
    if iface.isBorder then acc
    else
      let ownerId := iface.owner
      let ownerFace := iface.ownerFace
      let ownerCell := (alookup cells ownerId).getD emptyDCCell
      (List.range nInterfaceVertices).foldl
        (fun acc2 k =>
          reclaimVertexStep (ownerCell.connect.getD ((faceConnect ownerFace).getD k 0) 0)
            (nodeMorton ownerId ((faceConnect ownerFace).getD k 0)) acc2)
        acc

/-- Reclaiming one dangling cell (voloctree.cpp:1175-1221): keep all
`nCellVertices` vertices of the cell, then the face vertices of every
interface left on the cell, recording their stitch keys. -/
def reclaimDanglingCell (cells : List (Int × DCCell))
    (interfaces : List (Int × DCInterface)) (nodeMorton : Int → ℕ → ℕ)
    (nCellVertices nInterfaceVertices : ℕ) (faceConnect : ℕ → List ℕ)
    (cellId : Int) (st : ReclaimState) : ReclaimState :=
  let cell := (alookup cells cellId).getD emptyDCCell
  let st1 := (List.range nCellVertices).foldl
    (fun acc k => reclaimVertexStep (cell.connect.getD k 0) (nodeMorton cellId k) acc)
    st
  cell.interfaceRuns.join.foldl
    (reclaimIfaceStep cells interfaces nodeMorton nInterfaceVertices faceConnect) st1

/-- The dangling-cell pass of `deleteCells`, over the post-phase-1 cell and
interface containers. -/
def deleteCellsReclaim (patch : DCPatch) (deletedIds : List Int) : ReclaimState :=
  (deleteCellsPhase1 patch deletedIds).danglingCells.foldl
    (fun acc cid =>
      reclaimDanglingCell (deleteCellsPhase1 patch deletedIds).cells
        (deleteCellsInterfacesAfter patch deletedIds) patch.nodeMorton
        patch.nCellVertices patch.nInterfaceVertices patch.faceConnect cid acc)
    ⟨[], (deleteCellsPhase1 patch deletedIds).deadVertices⟩

/-- Result of `deleteCells`: the mutated patch and the stitch map returned
to `importCells`. -/
structure DeleteCellsResult where
  patch : DCPatch
  stitch : List (ℕ × Int)

/-- `VolOctree::deleteCells` (voloctree.cpp:1052-1232), serial form: the
dead-cell pass, interface deletion, the dangling-cell reclaim, and finally
the deletion of the vertices still in `deadVertices`. -/
def deleteCells (patch : DCPatch) (deletedIds : List Int) : DeleteCellsResult :=
  let st1 := deleteCellsPhase1 patch deletedIds
  let interfaces1 := deleteCellsInterfacesAfter patch deletedIds
  let rst := deleteCellsReclaim patch deletedIds
  let vertices1 := rst.deadVertices.foldl (fun vs v => setErase vs v) patch.vertices
  ⟨{ patch with cells := st1.cells, interfaces := interfaces1, vertices := vertices1 },
   rst.stitch⟩

/-- Two pixel cells sharing only the corner vertex `3` (no interface links
them; each has only border faces, elided): cell `0` will be deleted, cell
`1` survives. -/
def dcDemoPatch : DCPatch :=
  { cells := [(0, ⟨[0, 1, 2, 3], [[], [], [], []], [[], [], [], []]⟩),
              (1, ⟨[3, 4, 5, 6], [[], [], [], []], [[], [], [], []]⟩)]
    interfaces := []
    vertices := [0, 1, 2, 3, 4, 5, 6]
    nodeMorton := fun c k => c.natAbs * 10 + k
    nCellVertices := 4
    nInterfaceVertices := 2
    faceConnect := fun _ => [0, 1] }

/-- The surviving cell of `dcDemoPatch`. -/
def dcDemoCellOne : DCCell := ⟨[3, 4, 5, 6], [[], [], [], []], [[], [], [], []]⟩

/-- Two pixel cells joined by the non-border interface `10` (owner `0`,
neighbour `1`): deleting cell `0` makes cell `1` dangling. -/
def dcDemoPatchTwo : DCPatch :=
  { cells := [(0, ⟨[0, 1, 2, 3], [[10], [], [], []], [[1], [], [], []]⟩),
              (1, ⟨[1, 4, 5, 6], [[], [10], [], []], [[], [0], [], []]⟩)]
    interfaces := [(10, ⟨false, 0, 1, 0, 1⟩)]
    vertices := [0, 1, 2, 3, 4, 5, 6]
    nodeMorton := fun c k => c.natAbs * 10 + k
    nCellVertices := 4
    nInterfaceVertices := 2
    faceConnect := fun _ => [0, 1] }

/-- A small concrete `MarkerState` (cell `0` interior, every other cell a
ghost) used to instantiate the marker theorems. -/
def markerDemoState : MarkerState :=
  { cellIsInterior := fun i => decide (i = 0)
    cellToOctant := fun _ => 7
    cellToGhost := fun _ => 9
    markers := fun _ => 0
    balanceFlags := fun _ => false }

end Bitpit

namespace Bitpit

/-! Theorems. -/

theorem Arr3.add_def (a b : Arr3) : a + b = ⟨a.x + b.x, a.y + b.y, a.z + b.z⟩ := rfl

theorem Arr3.sub_def (a b : Arr3) : a - b = ⟨a.x - b.x, a.y - b.y, a.z - b.z⟩ := rfl

theorem Arr3.smul_def (c : ℚ) (a : Arr3) : c • a = ⟨c * a.x, c * a.y, c * a.z⟩ := rfl

theorem dotProduct_self_pos (v : Arr3) (h : v ≠ ⟨0, 0, 0⟩) : 0 < dotProduct v v := by
  rcases eq_or_ne v.x 0 with hx0 | hx0
  · rcases eq_or_ne v.y 0 with hy0 | hy0
    · rcases eq_or_ne v.z 0 with hz0 | hz0
      · exact absurd (by cases v; simp_all) h
      · have := mul_self_pos.mpr hz0
        have := mul_self_nonneg v.x
        have := mul_self_nonneg v.y
        unfold dotProduct; nlinarith
    · have := mul_self_pos.mpr hy0
      have := mul_self_nonneg v.x
      have := mul_self_nonneg v.z
      unfold dotProduct; nlinarith
  · have := mul_self_pos.mpr hx0
    have := mul_self_nonneg v.y
    have := mul_self_nonneg v.z
    unfold dotProduct; nlinarith

theorem clamped_quadratic_min (a b s : ℚ) (ha : 0 < a) (hs0 : 0 ≤ s) (hs1 : s ≤ 1) :
    a * (max (min (b / a) 1) 0) * (max (min (b / a) 1) 0)
      - 2 * b * (max (min (b / a) 1) 0) ≤ a * s * s - 2 * b * s := by
  rcases le_or_lt (b / a) 0 with hba | hba
  · have ht : max (min (b / a) 1) 0 = 0 := by
      have h1 : min (b / a) 1 ≤ 0 := le_trans (min_le_left _ _) hba
      simp [max_eq_right h1]
    rw [ht]
    have hb : b ≤ 0 := by
      have := (div_nonpos_iff.mp hba)
      rcases this with ⟨_, h2⟩ | ⟨h1, _⟩
      · linarith
      · exact h1
    nlinarith [mul_nonneg hs0 hs0, mul_nonneg hs0 (neg_nonneg.mpr hb)]
  · rcases le_or_lt 1 (b / a) with hba1 | hba1
    · have ht : max (min (b / a) 1) 0 = 1 := by
        rw [min_eq_right hba1]
        simp
      rw [ht]
      have hab : a ≤ b := by
        have := (one_le_div ha).mp hba1
        linarith
      nlinarith [mul_nonneg (sub_nonneg.mpr hs1) (sub_nonneg.mpr hab),
        mul_nonneg (mul_nonneg (sub_nonneg.mpr hs1) (sub_nonneg.mpr hs1)) ha.le]
    · have hane : a ≠ 0 := ne_of_gt ha
      have ht : max (min (b / a) 1) 0 = b / a := by
        rw [min_eq_left hba1.le, max_eq_left hba.le]
      rw [ht]
      have expand : a * (b / a) * (b / a) - 2 * b * (b / a) = -(b * b) / a := by
        field_simp
        ring
      rw [expand, div_le_iff₀ ha]
      nlinarith [sq_nonneg (a * s - b)]

/-- C8: for every point `P` and non-degenerate segment `(Q0, Q1)`,
`projectPointSegment` returns barycentric coordinates with
`lambda[0] ≥ 0`, `lambda[1] ≥ 0`, `lambda[0] + lambda[1] = 1`, the returned
point equals `lambda[0]*Q0 + lambda[1]*Q1`, and that point is a closest point
of the segment to `P` (minimality stated via squared distances, which order
points exactly as distances do). -/
theorem C8_projectPointSegment_closest (P Q0 Q1 : Arr3) (h : Q0 ≠ Q1) :
    0 ≤ (projectPointSegment P Q0 Q1).2.1 ∧
    0 ≤ (projectPointSegment P Q0 Q1).2.2 ∧
    (projectPointSegment P Q0 Q1).2.1 + (projectPointSegment P Q0 Q1).2.2 = 1 ∧
    (projectPointSegment P Q0 Q1).1 =
      (projectPointSegment P Q0 Q1).2.1 • Q0 + (projectPointSegment P Q0 Q1).2.2 • Q1 ∧
    ∀ s : ℚ, 0 ≤ s → s ≤ 1 →
      sqDist P (projectPointSegment P Q0 Q1).1 ≤ sqDist P (Q0 + s • (Q1 - Q0)) := by
  have hne : Q1 - Q0 ≠ (⟨0, 0, 0⟩ : Arr3) := by
    intro hc
    apply h
    cases Q0 with | mk x0 y0 z0 =>
    cases Q1 with | mk x1 y1 z1 =>
    simp only [Arr3.sub_def, Arr3.mk.injEq] at hc ⊢
    obtain ⟨h1, h2, h3⟩ := hc
    refine ⟨by linarith, by linarith, by linarith⟩
  have hT : -(dotProduct (Q1 - Q0) (Q0 - P)) = dotProduct (Q1 - Q0) (P - Q0) := by
    cases P; cases Q0; cases Q1
    simp only [dotProduct, Arr3.sub_def]
    ring
  set t : ℚ := max (min (-(dotProduct (Q1 - Q0) (Q0 - P)) /
    dotProduct (Q1 - Q0) (Q1 - Q0)) 1) 0 with htdef
  have hval : projectPointSegment P Q0 Q1 =
      (reconstructPointFromBarycentricSegment Q0 Q1 (1 - t) t, 1 - t, t) := rfl
  rw [hval]
  have ht0 : 0 ≤ t := le_max_right _ _
  have ht1 : t ≤ 1 := max_le (min_le_right _ 1) zero_le_one
  refine ⟨by simpa using ht1, ht0, by ring, rfl, ?_⟩
  intro s hs0 hs1
  have ha : 0 < dotProduct (Q1 - Q0) (Q1 - Q0) := dotProduct_self_pos _ hne
  have expand : ∀ u : ℚ, sqDist P (Q0 + u • (Q1 - Q0)) =
      dotProduct (P - Q0) (P - Q0) - 2 * (dotProduct (Q1 - Q0) (P - Q0)) * u
        + dotProduct (Q1 - Q0) (Q1 - Q0) * u * u := by
    intro u
    cases P; cases Q0; cases Q1
    simp only [sqDist, dotProduct, Arr3.add_def, Arr3.sub_def, Arr3.smul_def]
    ring
  have hXpt : reconstructPointFromBarycentricSegment Q0 Q1 (1 - t) t
      = Q0 + t • (Q1 - Q0) := by
    cases Q0; cases Q1
    simp only [reconstructPointFromBarycentricSegment, Arr3.add_def, Arr3.sub_def,
      Arr3.smul_def, Arr3.mk.injEq]
    refine ⟨by ring, by ring, by ring⟩
  have hteq : t = max (min (dotProduct (Q1 - Q0) (P - Q0) /
      dotProduct (Q1 - Q0) (Q1 - Q0)) 1) 0 := by
    rw [htdef, hT]
  have hmin := clamped_quadratic_min (dotProduct (Q1 - Q0) (Q1 - Q0))
    (dotProduct (Q1 - Q0) (P - Q0)) s ha hs0 hs1
  rw [← hteq] at hmin
  rw [hXpt, expand t, expand s]
  linarith

/-- C3: the uniformity test of `scale` is inverted in the source
(`> 1e-14` instead of `<= 1e-14`): every exactly uniform scaling vector is
rejected and leaves the geometry unchanged, while the non-uniform vector
`(2, 3, 4)` is accepted and multiplies the root edge length by `s[0] = 2`. -/
theorem C3_scale_uniformity_check_inverted :
    (∀ (st : TreeGeometry) (c : ℚ), scale st ⟨c, c, c⟩ = st) ∧
    (scale ⟨1, 3, 2, [], [], []⟩ ⟨2, 3, 4⟩).L = 2 ∧
    scale ⟨1, 3, 2, [], [], []⟩ ⟨2, 2, 2⟩ = ⟨1, 3, 2, [], [], []⟩ := by
  refine ⟨?_, by norm_num [scale, initializeTreeGeometry], by norm_num [scale]⟩
  intro st c
  simp [scale]

/-- C6: `set_marker` and `_enableCellBalancing` return `true` and write the
marker / balance flag of the mapped internal octant when the cell is
interior, and return `false` leaving the whole state untouched when the cell
is a ghost; marking for refinement / coarsening goes through `set_marker`
with values `1` / `-1`. -/
theorem C6_marker_accepted_iff_interior (st : MarkerState) (id value : Int)
    (enabled : Bool) :
    _markCellForRefinement st id = set_marker st id 1 ∧
    _markCellForCoarsening st id = set_marker st id (-1) ∧
    (st.cellIsInterior id = true →
      set_marker st id value =
        (true, { st with markers := updFn st.markers (st.cellToOctant id) value }) ∧
      _enableCellBalancing st id enabled =
        (true,
          { st with balanceFlags := updFn st.balanceFlags (st.cellToOctant id) enabled })) ∧
    (st.cellIsInterior id = false →
      set_marker st id value = (false, st) ∧
      _enableCellBalancing st id enabled = (false, st)) := by
  refine ⟨rfl, rfl, ?_, ?_⟩
  · intro hin
    constructor
    · simp [set_marker, getCellOctant, hin]
    · simp [_enableCellBalancing, getCellOctant, hin]
  · intro hout
    constructor
    · simp [set_marker, getCellOctant, hout]
    · simp [_enableCellBalancing, getCellOctant, hout]

/-- Witness for C6 on `markerDemoState`: cell `0` is interior and accepted,
cell `1` is a ghost and rejected without mutation. -/
theorem C6_marker_accepted_iff_interior_witness :
    markerDemoState.cellIsInterior 0 = true ∧
    markerDemoState.cellIsInterior 1 = false ∧
    set_marker markerDemoState 0 1 =
      (true, { markerDemoState with markers := updFn markerDemoState.markers 7 1 }) ∧
    set_marker markerDemoState 1 1 = (false, markerDemoState) :=
  ⟨rfl, rfl,
    ((C6_marker_accepted_iff_interior markerDemoState 0 1 true).2.2.1 rfl).1,
    ((C6_marker_accepted_iff_interior markerDemoState 1 1 true).2.2.2 rfl).1⟩

/-- C7: `initializeTreeGeometry` fills the tables for the levels
`0, …, maxLevel - 1` only, each entry carrying `L·2^(-l)` raised to the
dimensionful power, and the tables have no entry at level `maxLevel`
itself — `evalCellSize` / `evalCellVolume` / `evalInterfaceArea` read past
the end of the vectors for a cell at the maximum admissible level. -/
theorem C7_level_tables_stop_before_max_level (st : TreeGeometry) :
    (∀ l : ℕ, l < st.maxLevel →
      evalCellSize (initializeTreeGeometry st) l = some (st.L / 2 ^ l) ∧
      evalCellVolume (initializeTreeGeometry st) l = some ((st.L / 2 ^ l) ^ st.dim) ∧
      evalInterfaceArea (initializeTreeGeometry st) l =
        some ((st.L / 2 ^ l) ^ (st.dim - 1))) ∧
    evalCellSize (initializeTreeGeometry st) st.maxLevel = none ∧
    evalCellVolume (initializeTreeGeometry st) st.maxLevel = none ∧
    evalInterfaceArea (initializeTreeGeometry st) st.maxLevel = none := by
  constructor
  · intro l hl
    refine ⟨?_, ?_, ?_⟩
    · simp [evalCellSize, initializeTreeGeometry, List.get?_map, List.get?_range, hl]
    · simp [evalCellVolume, initializeTreeGeometry, List.get?_map, List.get?_range, hl]
    · simp [evalInterfaceArea, initializeTreeGeometry, List.get?_map, List.get?_range, hl]
  · refine ⟨?_, ?_, ?_⟩ <;>
      simp [evalCellSize, evalCellVolume, evalInterfaceArea, initializeTreeGeometry,
        List.get?_eq_none]

/-- Witness for C7 with `L = 1`, `maxLevel = 3`, `dim = 2`: the table is
defined at level `2 < 3` with the exact value `1/4`, and undefined at the
maximum level `3`. -/
theorem C7_level_tables_stop_before_max_level_witness :
    (2 < 3 ∧
      evalCellSize (initializeTreeGeometry ⟨1, 3, 2, [], [], []⟩) 2 = some (1 / 4)) ∧
    evalCellSize (initializeTreeGeometry ⟨1, 3, 2, [], [], []⟩) 3 = none := by
  have h := C7_level_tables_stop_before_max_level ⟨1, 3, 2, [], [], []⟩
  refine ⟨⟨by norm_num, ?_⟩, h.2.1⟩
  have := (h.1 2 (by norm_num)).1
  rw [this]
  norm_num

/-- C9: at a concrete input whose Y-direction branch fires,
`subtractionAABB` writes the Z components `A0[2] = 20`, `A1[2] = 25` into
the Y slots of the output instead of the Y components `A0[1] = 10`,
`A1[1] = 11` — the copy-paste defect in the Y branch. -/
theorem C9_subtractionAABB_y_branch_uses_z :
    subtractionAABB ⟨0, 10, 20⟩ ⟨1, 11, 25⟩ ⟨-1, 21/2, 19⟩ ⟨2, 107/10, 26⟩
        ⟨0, 0, 0⟩ ⟨0, 0, 0⟩ = (⟨0, 20, 0⟩, ⟨0, 25, 0⟩) ∧
    ((20 : ℚ) ≠ 10 ∧ (25 : ℚ) ≠ 11) := by
  constructor
  · norm_num [subtractionAABB]
  · norm_num

theorem mem_setInsert (s : List Int) (w v : Int) :
    v ∈ setInsert s w ↔ v ∈ s ∨ v = w := by
  unfold setInsert
  split
  · next h =>
    constructor
    · exact Or.inl
    · rintro (h1 | rfl)
      · exact h1
      · exact h
  · simp

theorem mem_setErase (s : List Int) (w v : Int) :
    v ∈ setErase s w ↔ v ∈ s ∧ v ≠ w := by
  unfold setErase
  simp

theorem mem_foldl_setInsert (l : List Int) :
    ∀ (s : List Int) (v : Int), v ∈ l.foldl setInsert s ↔ v ∈ s ∨ v ∈ l := by
  induction l with
  | nil => simp
  | cons a rest ih =>
    intro s v
    simp only [List.foldl_cons]
    rw [ih, mem_setInsert, List.mem_cons]
    tauto

theorem mem_foldl_setErase (l : List Int) :
    ∀ (s : List Int) (v : Int),
      v ∈ l.foldl (fun vs w => setErase vs w) s ↔ v ∈ s ∧ v ∉ l := by
  induction l with
  | nil => simp
  | cons a rest ih =>
    intro s v
    simp only [List.foldl_cons]
    rw [ih, mem_setErase, List.mem_cons]
    tauto

/-- Connectivity of the cell stored under `id`, with the default for an
absent id. -/
def ConnectD (m : List (Int × DCCell)) (id : Int) : List Int :=
  ((alookup m id).getD emptyDCCell).connect

theorem alookup_cons {β : Type} (e : Int × β) (rest : List (Int × β)) (id : Int) :
    alookup (e :: rest) id = if e.1 = id then some e.2 else alookup rest id := by
  simp only [alookup, List.find?_cons]
  by_cases h : e.1 = id
  · have hb : (e.1 == id) = true := by simpa using h
    simp [hb, h]
  · have hb : (e.1 == id) = false := by simpa using h
    simp [hb, h]

theorem alookup_aupdate {β : Type} (k : Int) (f : β → β) :
    ∀ (m : List (Int × β)) (id : Int),
      alookup (aupdate m k f) id =
        if id = k then (alookup m id).map f else alookup m id := by
  intro m
  induction m with
  | nil =>
    intro id
    simp only [aupdate, List.map_nil, alookup, List.find?_nil, Option.map_none']
    split <;> rfl
  | cons e rest ih =>
    intro id
    have hstep : aupdate (e :: rest) k f =
        (if (e.1 == k) = true then (e.1, f e.2) else e) :: aupdate rest k f := rfl
    rw [hstep, alookup_cons, alookup_cons, ih id]
    by_cases hek : e.1 = k <;> by_cases hid : id = k <;>
      split_ifs <;> simp_all

theorem alookup_aerase {β : Type} (k : Int) :
    ∀ (m : List (Int × β)) (id : Int),
      alookup (aerase m k) id = if id = k then none else alookup m id := by
  intro m
  induction m with
  | nil =>
    intro id
    simp only [aerase, List.filter_nil, alookup, List.find?_nil, Option.map_none']
    split <;> rfl
  | cons e rest ih =>
    intro id
    have hstep : aerase (e :: rest) k =
        if (!(e.1 == k)) = true then e :: aerase rest k else aerase rest k := by
      simp only [aerase, List.filter_cons]
    rw [hstep]
    by_cases hek : e.1 = k
    · have h1 : (!(e.1 == k)) = false := by simpa using hek
      rw [h1]
      simp only [Bool.false_eq_true, if_false]
      rw [ih id, alookup_cons]
      by_cases hid : id = k
      · simp [hid]
      · have heid : ¬e.1 = id := by
          rw [hek]
          exact fun h => hid h.symm
        simp [hid, heid]
    · have h1 : (!(e.1 == k)) = true := by simpa using hek
      rw [h1, if_pos rfl, alookup_cons, alookup_cons, ih id]
      by_cases heid : e.1 = id
      · have hid : ¬id = k := fun hc => hek (heid.trans hc)
        simp [heid, hid]
      · simp [heid]

theorem removeDanglingLinks_connect (c : DCCell) (face : ℕ) (iid nid : Int) :
    (removeDanglingLinks c face iid nid).connect = c.connect := rfl

theorem connectD_aupdate_removeDangling (m : List (Int × DCCell)) (k : Int)
    (face : ℕ) (iid nid : Int) (id : Int) :
    ConnectD (aupdate m k (fun c => removeDanglingLinks c face iid nid)) id
      = ConnectD m id := by
  unfold ConnectD
  rw [alookup_aupdate]
  split
  · cases alookup m id with
    | none => rfl
    | some c => simp [removeDanglingLinks_connect]
  · rfl

theorem connectD_aerase (m : List (Int × DCCell)) (k id : Int) :
    ConnectD (aerase m k) id = if id = k then [] else ConnectD m id := by
  unfold ConnectD
  rw [alookup_aerase]
  split
  · rfl
  · rfl

theorem danglingUpdate_deadVertices (dc : List Int) (iface : DCInterface)
    (i : Int) (st : DeadLoopState) :
    (danglingUpdate dc iface i st).deadVertices = st.deadVertices := by
  simp only [danglingUpdate]
  split_ifs <;> rfl

theorem danglingUpdate_connectD (dc : List Int) (iface : DCInterface)
    (i : Int) (st : DeadLoopState) (id : Int) :
    ConnectD (danglingUpdate dc iface i st).cells id = ConnectD st.cells id := by
  simp only [danglingUpdate]
  split_ifs <;>
    first
      | rfl
      | exact connectD_aupdate_removeDangling _ _ _ _ _ id

theorem processDeadInterfaces_deadVertices (pi : List (Int × DCInterface))
    (dc : List Int) :
    ∀ (l : List Int) (st : DeadLoopState),
      (processDeadInterfaces pi dc l st).deadVertices = st.deadVertices := by
  intro l
  induction l with
  | nil => intro st; rfl
  | cons i rest ih =>
    intro st
    simp only [processDeadInterfaces]
    split
    · exact ih st
    · split
      · exact ih st
      · rw [ih]
        exact danglingUpdate_deadVertices dc _ i st

theorem processDeadInterfaces_danglingCells_cells (pi : List (Int × DCInterface))
    (dc : List Int) :
    ∀ (l : List Int) (st : DeadLoopState) (id : Int),
      ConnectD (processDeadInterfaces pi dc l st).cells id = ConnectD st.cells id := by
  intro l
  induction l with
  | nil => intro st _; rfl
  | cons i rest ih =>
    intro st id
    simp only [processDeadInterfaces]
    split
    · exact ih st id
    · split
      · exact ih st id
      · rw [ih]
        exact danglingUpdate_connectD dc _ i st id

theorem processDeadCell_deadVertices (pi : List (Int × DCInterface))
    (dc : List Int) (cid : Int) (st : DeadLoopState) :
    (processDeadCell pi dc cid st).deadVertices =
      (ConnectD st.cells cid).foldl setInsert st.deadVertices := by
  simp only [processDeadCell, processDeadInterfaces_deadVertices, ConnectD]

theorem processDeadCell_connectD (pi : List (Int × DCInterface)) (dc : List Int)
    (cid : Int) (st : DeadLoopState) (id : Int) :
    ConnectD (processDeadCell pi dc cid st).cells id = ConnectD st.cells id ∨
    ConnectD (processDeadCell pi dc cid st).cells id = [] := by
  simp only [processDeadCell]
  rw [connectD_aerase]
  split
  · exact Or.inr rfl
  · exact Or.inl (processDeadInterfaces_danglingCells_cells pi dc _ _ id)

theorem processDeadCells_origin (pi : List (Int × DCInterface)) (dc : List Int)
    (patchCells : List (Int × DCCell)) :
    ∀ (order : List Int) (st : DeadLoopState),
      (∀ id, ConnectD st.cells id = ConnectD patchCells id ∨
        ConnectD st.cells id = []) →
      ∀ v, v ∈ (processDeadCells pi dc order st).deadVertices →
        v ∈ st.deadVertices ∨ ∃ id ∈ order, v ∈ ConnectD patchCells id := by
  intro order
  induction order with
  | nil => intro st _ v hv; exact Or.inl hv
  | cons cellId rest ih =>
    intro st hinv v hv
    simp only [processDeadCells] at hv
    have hinv' : ∀ id, ConnectD (processDeadCell pi dc cellId st).cells id =
        ConnectD patchCells id ∨ ConnectD (processDeadCell pi dc cellId st).cells id
          = [] := by
      intro id
      rcases processDeadCell_connectD pi dc cellId st id with h | h
      · rw [h]; exact hinv id
      · exact Or.inr h
    rcases ih (processDeadCell pi dc cellId st) hinv' v hv with h1 | ⟨id, hid, hc⟩
    · rw [processDeadCell_deadVertices, mem_foldl_setInsert] at h1
      rcases h1 with h2 | h2
      · exact Or.inl h2
      · rcases hinv cellId with h3 | h3
        · rw [h3] at h2
          exact Or.inr ⟨cellId, List.mem_cons_self _ _, h2⟩
        · rw [h3] at h2
          cases h2
    · exact Or.inr ⟨id, List.mem_cons_of_mem _ hid, hc⟩

theorem foldl_deadVertices_subset {α : Type} (step : ReclaimState → α → ReclaimState)
    (hstep : ∀ acc a v, v ∈ (step acc a).deadVertices → v ∈ acc.deadVertices)
    (l : List α) :
    ∀ (acc : ReclaimState) (v : Int),
      v ∈ (l.foldl step acc).deadVertices → v ∈ acc.deadVertices := by
  induction l with
  | nil => intro acc v h; exact h
  | cons a rest ih =>
    intro acc v h
    exact hstep _ _ _ (ih (step acc a) v h)

theorem foldl_kills {α : Type} (step : ReclaimState → α → ReclaimState)
    (hshrink : ∀ acc a v, v ∈ (step acc a).deadVertices → v ∈ acc.deadVertices)
    (cid : α) (v : Int) (hkill : ∀ acc, v ∉ (step acc cid).deadVertices) :
    ∀ (l : List α) (acc : ReclaimState),
      cid ∈ l → v ∉ (l.foldl step acc).deadVertices := by
  intro l
  induction l with
  | nil => intro acc h; cases h
  | cons a rest ih =>
    intro acc hmem hvin
    rcases List.mem_cons.mp hmem with rfl | hmem'
    · exact hkill acc (foldl_deadVertices_subset step hshrink rest (step acc cid) v hvin)
    · exact ih (step acc a) hmem' hvin

theorem reclaimVertexStep_subset (vertexId : Int) (morton : ℕ)
    (acc : ReclaimState) (v : Int) :
    v ∈ (reclaimVertexStep vertexId morton acc).deadVertices →
      v ∈ acc.deadVertices := by
  intro h
  exact (mem_setErase _ _ _ |>.mp h).1

theorem reclaimVertexStep_kills (vertexId : Int) (morton : ℕ)
    (acc : ReclaimState) :
    vertexId ∉ (reclaimVertexStep vertexId morton acc).deadVertices := by
  intro h
  exact (mem_setErase _ _ _ |>.mp h).2 rfl

theorem reclaimIfaceStep_subset (cells : List (Int × DCCell))
    (interfaces : List (Int × DCInterface)) (nm : Int → ℕ → ℕ) (nIV : ℕ)
    (fc : ℕ → List ℕ) (acc : ReclaimState) (i : Int) (v : Int) :
    v ∈ (reclaimIfaceStep cells interfaces nm nIV fc acc i).deadVertices →
      v ∈ acc.deadVertices := by
  intro h
  simp only [reclaimIfaceStep] at h
  split at h
  · exact h
  · split at h
    · exact h
    · exact foldl_deadVertices_subset _
        (fun acc2 k w hw => reclaimVertexStep_subset _ _ _ _ hw) _ _ _ h

theorem reclaimDanglingCell_subset (cells : List (Int × DCCell))
    (interfaces : List (Int × DCInterface)) (nm : Int → ℕ → ℕ) (nCV nIV : ℕ)
    (fc : ℕ → List ℕ) (cid : Int) (st : ReclaimState) (v : Int) :
    v ∈ (reclaimDanglingCell cells interfaces nm nCV nIV fc cid st).deadVertices →
      v ∈ st.deadVertices := by
  intro h
  simp only [reclaimDanglingCell] at h
  have h1 := foldl_deadVertices_subset _
    (fun acc i w hw => reclaimIfaceStep_subset cells interfaces nm nIV fc acc i w hw)
    _ _ _ h
  exact foldl_deadVertices_subset _
    (fun acc k w hw => reclaimVertexStep_subset _ _ _ _ hw) _ _ _ h1

theorem reclaimDanglingCell_kills (cells : List (Int × DCCell))
    (interfaces : List (Int × DCInterface)) (nm : Int → ℕ → ℕ) (nCV nIV : ℕ)
    (fc : ℕ → List ℕ) (cid : Int) (acc : ReclaimState) (k : ℕ) (hk : k < nCV) :
    (ConnectD cells cid).getD k 0
      ∉ (reclaimDanglingCell cells interfaces nm nCV nIV fc cid acc).deadVertices := by
  intro h
  simp only [reclaimDanglingCell] at h
  have h1 := foldl_deadVertices_subset _
    (fun acc2 i w hw => reclaimIfaceStep_subset cells interfaces nm nIV fc acc2 i w hw)
    _ _ _ h
  exact foldl_kills
    (fun acc2 k2 => reclaimVertexStep
      (((alookup cells cid).getD emptyDCCell).connect.getD k2 0) (nm cid k2) acc2)
    (fun acc2 a w hw => reclaimVertexStep_subset _ _ _ _ hw) k
    (((alookup cells cid).getD emptyDCCell).connect.getD k 0)
    (fun acc2 => reclaimVertexStep_kills _ _ _) (List.range nCV) acc
    (List.mem_range.mpr hk) h1

theorem deleteCellsPhase1_origin (patch : DCPatch) (ids : List Int) (v : Int)
    (hv : v ∈ (deleteCellsPhase1 patch ids).deadVertices) :
    ∃ id ∈ dedupIds ids, v ∈ ConnectD patch.cells id := by
  have := processDeadCells_origin patch.interfaces (dedupIds ids) patch.cells
    (dedupIds ids) ⟨patch.cells, [], [], []⟩ (fun _ => Or.inl rfl) v hv
  rcases this with h | h
  · cases h
  · exact h

theorem deleteCells_vertices (patch : DCPatch) (ids : List Int) :
    (deleteCells patch ids).patch.vertices =
      (deleteCellsReclaim patch ids).deadVertices.foldl (fun vs v => setErase vs v)
        patch.vertices := rfl

theorem reclaim_subset_phase1 (patch : DCPatch) (ids : List Int) (v : Int)
    (h : v ∈ (deleteCellsReclaim patch ids).deadVertices) :
    v ∈ (deleteCellsPhase1 patch ids).deadVertices := by
  simp only [deleteCellsReclaim] at h
  exact foldl_deadVertices_subset _
    (fun acc a w hw => reclaimDanglingCell_subset _ _ _ _ _ _ _ _ _ hw) _ _ _ h

/-- C5 counterexample: in `dcDemoPatch`, deleting cell `0` removes vertex
`3` although the surviving cell `1` still references it — cell `1` shares
only the corner vertex with the deleted cell, so it is not dangling and the
reclaim pass never keeps its vertices. -/
theorem C5_counterexample_corner_vertex_deleted :
    (deleteCells dcDemoPatch [0]).patch.vertices = [4, 5, 6] ∧
    alookup (deleteCells dcDemoPatch [0]).patch.cells 1 = some dcDemoCellOne ∧
    3 ∈ dcDemoCellOne.connect ∧
    3 ∉ (deleteCells dcDemoPatch [0]).patch.vertices := by
  refine ⟨by decide, by decide, by decide, by decide⟩

/-- C5 amended: after `deleteCells`, (i) a vertex that no deleted cell
references always survives; (ii) every vertex slot of a dangling cell is
reclaimed and survives (if it was in the container); (iii) a vertex of a
deleted cell that the dangling-cell reclaim pass did not rescue is removed —
even if a surviving non-dangling cell (for instance a corner-only
neighbour) still references it. -/
theorem C5_amended_vertex_survival (patch : DCPatch) (deletedIds : List Int) :
    (∀ v : Int, v ∈ patch.vertices →
      (∀ id ∈ dedupIds deletedIds, v ∉ ConnectD patch.cells id) →
      v ∈ (deleteCells patch deletedIds).patch.vertices) ∧
    (∀ cid ∈ (deleteCellsPhase1 patch deletedIds).danglingCells,
      ∀ k, k < patch.nCellVertices →
        (ConnectD (deleteCellsPhase1 patch deletedIds).cells cid).getD k 0
            ∈ patch.vertices →
        (ConnectD (deleteCellsPhase1 patch deletedIds).cells cid).getD k 0
            ∈ (deleteCells patch deletedIds).patch.vertices) ∧
    (∀ v : Int, v ∈ (deleteCellsReclaim patch deletedIds).deadVertices →
      v ∉ (deleteCells patch deletedIds).patch.vertices) := by
  refine ⟨?_, ?_, ?_⟩
  · intro v hv hnd
    rw [deleteCells_vertices, mem_foldl_setErase]
    refine ⟨hv, fun hin => ?_⟩
    obtain ⟨id, hid, hc⟩ := deleteCellsPhase1_origin patch deletedIds v
      (reclaim_subset_phase1 patch deletedIds v hin)
    exact hnd id hid hc
  · intro cid hcid k hk hmem
    rw [deleteCells_vertices, mem_foldl_setErase]
    refine ⟨hmem, ?_⟩
    show (ConnectD (deleteCellsPhase1 patch deletedIds).cells cid).getD k 0
      ∉ (deleteCellsReclaim patch deletedIds).deadVertices
    simp only [deleteCellsReclaim]
    exact foldl_kills
      (fun acc cid2 => reclaimDanglingCell (deleteCellsPhase1 patch deletedIds).cells
        (deleteCellsInterfacesAfter patch deletedIds) patch.nodeMorton
        patch.nCellVertices patch.nInterfaceVertices patch.faceConnect cid2 acc)
      (fun acc a w hw => reclaimDanglingCell_subset _ _ _ _ _ _ _ _ _ hw) cid
      ((ConnectD (deleteCellsPhase1 patch deletedIds).cells cid).getD k 0)
      (fun acc => reclaimDanglingCell_kills _ _ _ _ _ _ _ _ k hk) _ _ hcid
  · intro v hin hmem
    rw [deleteCells_vertices, mem_foldl_setErase] at hmem
    exact hmem.2 hin

/-- Witness for the amended C5 statement on `dcDemoPatchTwo` (cell `0`
deleted, cell `1` dangling through interface `10`): vertex `4` is untouched
and survives, the dangling cell's vertex slot `0` (vertex `1`, shared with
the deleted cell) is reclaimed, and vertex `0` is removed. -/
theorem C5_amended_vertex_survival_witness :
    4 ∈ (deleteCells dcDemoPatchTwo [0]).patch.vertices ∧
    (ConnectD (deleteCellsPhase1 dcDemoPatchTwo [0]).cells 1).getD 0 0
      ∈ (deleteCells dcDemoPatchTwo [0]).patch.vertices ∧
    0 ∉ (deleteCells dcDemoPatchTwo [0]).patch.vertices :=
  ⟨(C5_amended_vertex_survival dcDemoPatchTwo [0]).1 4 (by decide) (by decide),
   (C5_amended_vertex_survival dcDemoPatchTwo [0]).2.1 1 (by decide) 0 (by decide)
     (by decide),
   (C5_amended_vertex_survival dcDemoPatchTwo [0]).2.2 0 (by decide)⟩

theorem findInRunAux_nonneg_of_mem (target : Int) :
    ∀ (run : List Int) (i : ℕ), target ∈ run → 0 ≤ findInRunAux run target i := by
  intro run
  induction run with
  | nil => intro i h; cases h
  | cons a rest ih =>
    intro i h
    simp only [findInRunAux]
    split
    · positivity
    · next hne =>
      rcases List.mem_cons.mp h with h1 | h1
      · exact absurd h1.symm hne
      · exact ih (i + 1) h1

theorem findInRunAux_neg_of_not_mem (target : Int) :
    ∀ (run : List Int) (i : ℕ), target ∉ run → findInRunAux run target i = -1 := by
  intro run
  induction run with
  | nil => intro i _; rfl
  | cons a rest ih =>
    intro i h
    simp only [findInRunAux]
    rw [List.mem_cons, not_or] at h
    split
    · next heq => exact absurd heq (fun hc => h.1 hc.symm)
    · exact ih (i + 1) h.2

theorem pushAdjacency_of_mem (run : List Int) (b : Int) (hb : b ∈ run) :
    pushAdjacency run b = run := by
  unfold pushAdjacency findAdjacency
  rw [if_pos (findInRunAux_nonneg_of_mem b run 0 hb)]

theorem pushAdjacency_of_not_mem (run : List Int) (b : Int) (hb : b ∉ run) :
    pushAdjacency run b = run ++ [b] := by
  unfold pushAdjacency findAdjacency
  rw [findInRunAux_neg_of_not_mem b run 0 hb]
  norm_num

theorem mem_pushAdjacency (run : List Int) (b d : Int) :
    d ∈ pushAdjacency run b ↔ d ∈ run ∨ d = b := by
  by_cases hb : b ∈ run
  · rw [pushAdjacency_of_mem run b hb]
    constructor
    · exact Or.inl
    · rintro (h | rfl)
      · exact h
      · exact hb
  · rw [pushAdjacency_of_not_mem run b hb]
    simp

theorem pushAdjacency_nodup (run : List Int) (b : Int) (h : run.Nodup) :
    (pushAdjacency run b).Nodup := by
  by_cases hb : b ∈ run
  · rwa [pushAdjacency_of_mem run b hb]
  · rw [pushAdjacency_of_not_mem run b hb]
    simp [List.nodup_append, h, hb]

theorem mem_pushAdjacencyAt (adj : AdjTable) (cid : Int) (face : ℕ) (nid : Int)
    (c : Int) (g : ℕ) (d : Int) :
    d ∈ pushAdjacencyAt adj cid face nid c g ↔
      d ∈ adj c g ∨ (c = cid ∧ g = face ∧ d = nid) := by
  unfold pushAdjacencyAt
  by_cases h : c = cid ∧ g = face
  · rw [if_pos h, mem_pushAdjacency]
    obtain ⟨h1, h2⟩ := h
    subst h1; subst h2
    tauto
  · rw [if_neg h]
    tauto

theorem pushAdjacencyAt_dupfree (adj : AdjTable) (cid : Int) (face : ℕ) (nid : Int)
    (h : AdjDupFree adj) : AdjDupFree (pushAdjacencyAt adj cid face nid) := by
  intro c g
  unfold pushAdjacencyAt
  split
  · exact pushAdjacency_nodup _ _ (h c g)
  · exact h c g

theorem pairPush_preserves (opp : ℕ → ℕ) (hopp : ∀ f, opp (opp f) = f)
    (adj : AdjTable) (a : Int) (f : ℕ) (b : Int)
    (hsym : AdjSymmetric opp adj) (hdf : AdjDupFree adj) :
    AdjSymmetric opp (pushAdjacencyAt (pushAdjacencyAt adj a f b) b (opp f) a) ∧
    AdjDupFree (pushAdjacencyAt (pushAdjacencyAt adj a f b) b (opp f) a) := by
  constructor
  · intro c g d
    rw [mem_pushAdjacencyAt, mem_pushAdjacencyAt, mem_pushAdjacencyAt,
      mem_pushAdjacencyAt]
    constructor
    · rintro ((hmem | ⟨hc, hg, hd⟩) | ⟨hc, hg, hd⟩)
      · exact Or.inl (Or.inl ((hsym c g d).mp hmem))
      · subst hc; subst hg; subst hd
        exact Or.inr ⟨rfl, rfl, rfl⟩
      · subst hc; subst hg; subst hd
        exact Or.inl (Or.inr ⟨rfl, hopp f, rfl⟩)
    · rintro ((hmem | ⟨hd, hg, hc⟩) | ⟨hd, hg, hc⟩)
      · exact Or.inl (Or.inl ((hsym c g d).mpr hmem))
      · subst hd; subst hc
        refine Or.inr ⟨rfl, ?_, rfl⟩
        have := congrArg opp hg
        rwa [hopp] at this
      · subst hd; subst hc
        refine Or.inl (Or.inr ⟨rfl, ?_, rfl⟩)
        have := congrArg opp hg
        rwa [hopp, hopp] at this
  · exact pushAdjacencyAt_dupfree _ _ _ _ (pushAdjacencyAt_dupfree _ _ _ _ hdf)

theorem updateAdjacenciesNeighLoop_preserves (opp : ℕ → ℕ)
    (hopp : ∀ f, opp (opp f) = f) (cellId : Int) (face : ℕ)
    (neighIds : List Int) :
    ∀ st : AdjLoopState, AdjSymmetric opp st.adj → AdjDupFree st.adj →
      AdjSymmetric opp (updateAdjacenciesNeighLoop opp cellId face neighIds st).adj ∧
      AdjDupFree (updateAdjacenciesNeighLoop opp cellId face neighIds st).adj := by
  induction neighIds with
  | nil => intro st h1 h2; exact ⟨h1, h2⟩
  | cons nid rest ih =>
    intro st h1 h2
    simp only [updateAdjacenciesNeighLoop]
    have hp := pairPush_preserves opp hopp st.adj cellId face nid h1 h2
    exact ih _ hp.1 hp.2

theorem updateAdjacenciesFaceLoop_preserves (opp : ℕ → ℕ)
    (hopp : ∀ f, opp (opp f) = f) (neighbours : Int → ℕ → List Int)
    (cellId : Int) (faces : List ℕ) :
    ∀ st : AdjLoopState, AdjSymmetric opp st.adj → AdjDupFree st.adj →
      AdjSymmetric opp
        (updateAdjacenciesFaceLoop opp neighbours cellId faces st).adj ∧
      AdjDupFree (updateAdjacenciesFaceLoop opp neighbours cellId faces st).adj := by
  induction faces with
  | nil => intro st h1 h2; exact ⟨h1, h2⟩
  | cons face rest ih =>
    intro st h1 h2
    simp only [updateAdjacenciesFaceLoop]
    by_cases hmem : (cellId, face) ∈ st.processed
    · rw [if_pos hmem]
      exact ih st h1 h2
    · rw [if_neg hmem]
      have hp := updateAdjacenciesNeighLoop_preserves opp hopp cellId face
        (neighbours cellId face) st h1 h2
      exact ih _ hp.1 hp.2

/-- C4: after `updateAdjacencies` the adjacency relation is symmetric and
duplicate-free.  `pushAdjacency` refuses ids already present in the face
run; every discovered neighbour pair is inserted in both directions in the
same step, on opposite faces; hence starting from any symmetric and
duplicate-free table (in particular the empty table of freshly imported
cells) the final table is symmetric and duplicate-free, for every neighbour
oracle and every involutive opposite-face table. -/
theorem C4_updateAdjacencies_symmetric_dupfree (oppositeFace : ℕ → ℕ)
    (hopp : ∀ f, oppositeFace (oppositeFace f) = f)
    (neighbours : Int → ℕ → List Int) (nCellFaces : ℕ) (cellIds : List Int)
    (st : AdjLoopState) (hsym : AdjSymmetric oppositeFace st.adj)
    (hdf : AdjDupFree st.adj) :
    (∀ (run : List Int) (b : Int), b ∈ run → pushAdjacency run b = run) ∧
    AdjSymmetric oppositeFace
      (updateAdjacencies oppositeFace neighbours nCellFaces cellIds st).adj ∧
    AdjDupFree
      (updateAdjacencies oppositeFace neighbours nCellFaces cellIds st).adj := by
  refine ⟨pushAdjacency_of_mem, ?_⟩
  induction cellIds generalizing st with
  | nil => exact ⟨hsym, hdf⟩
  | cons cellId rest ih =>
    simp only [updateAdjacencies]
    have hp := updateAdjacenciesFaceLoop_preserves oppositeFace hopp neighbours
      cellId (List.range nCellFaces) st hsym hdf
    exact ih _ hp.1 hp.2

/-- Witness for C4: the involutive pairing 0↔1, 2↔3, …, the empty initial
table, a two-cell patch and a constant neighbour oracle. -/
theorem C4_updateAdjacencies_symmetric_dupfree_witness :
    (∀ f, oppFaceDemo (oppFaceDemo f) = f) ∧
    AdjSymmetric oppFaceDemo
      (updateAdjacencies oppFaceDemo (fun _ _ => [3]) 4 [1, 2]
        ⟨fun _ _ => [], []⟩).adj ∧
    AdjDupFree
      (updateAdjacencies oppFaceDemo (fun _ _ => [3]) 4 [1, 2]
        ⟨fun _ _ => [], []⟩).adj := by
  have hopp : ∀ f, oppFaceDemo (oppFaceDemo f) = f := by
    intro f
    unfold oppFaceDemo
    split_ifs <;> omega
  refine ⟨hopp, (C4_updateAdjacencies_symmetric_dupfree oppFaceDemo hopp
    (fun _ _ => [3]) 4 [1, 2] ⟨fun _ _ => [], []⟩ ?_ ?_).2⟩
  · intro a f b
    simp
  · intro a f
    simp

theorem segmentBoxLoop2D_true (edges : List (Arr3 × Arr3)) (V1 V2 : Arr3) :
    ∀ (p : Arr3) (P : List Arr3), (segmentBoxLoop2D edges V1 V2 p true P).1 = true := by
  induction edges with
  | nil => intro p P; rfl
  | cons e rest ih =>
    intro p P
    obtain ⟨E1, E2⟩ := e
    simp only [segmentBoxLoop2D]
    split
    · exact ih _ _
    · exact ih _ _

theorem segmentBoxLoop2D_false_no_push (edges : List (Arr3 × Arr3)) (V1 V2 : Arr3) :
    ∀ (p : Arr3) (P : List Arr3),
      (segmentBoxLoop2D edges V1 V2 p false P).1 = false →
      (segmentBoxLoop2D edges V1 V2 p false P).2 = P := by
  induction edges with
  | nil => intro p P _; rfl
  | cons e rest ih =>
    intro p P h
    obtain ⟨E1, E2⟩ := e
    simp only [segmentBoxLoop2D] at h ⊢
    split at h
    · rw [segmentBoxLoop2D_true] at h
      exact absurd h (by simp)
    · next hcond =>
      simp only [hcond] at *
      exact ih _ _ h

/-- C10 counterexample: the supporting lines of the two segments meet at
`(2,0,0)`, outside the first segment, so `intersectSegmentSegment` returns
`false` — yet the caller-visible out-parameter `x`, initially `(9,9,9)`, has
been overwritten with the line intersection point. -/
theorem C10_counterexample_segmentSegment_writes_on_false :
    (intersectSegmentSegment ⟨0, 0, 0⟩ ⟨1, 0, 0⟩ ⟨2, -1, 0⟩ ⟨2, 1, 0⟩ ⟨9, 9, 9⟩).1
      = false ∧
    (intersectSegmentSegment ⟨0, 0, 0⟩ ⟨1, 0, 0⟩ ⟨2, -1, 0⟩ ⟨2, 1, 0⟩ ⟨9, 9, 9⟩).2
      = ⟨2, 0, 0⟩ ∧
    (⟨2, 0, 0⟩ : Arr3) ≠ ⟨9, 9, 9⟩ := by
  have key : intersectSegmentSegment ⟨0, 0, 0⟩ ⟨1, 0, 0⟩ ⟨2, -1, 0⟩ ⟨2, 1, 0⟩ ⟨9, 9, 9⟩
      = (false, ⟨2, 0, 0⟩) := by
    norm_num [intersectSegmentSegment, intersectLineLine, distanceLineLine,
      distancePointLine, projectPointLine, norm2, ratSqrt, dotProduct,
      Arr3.sub_def, Arr3.add_def, Arr3.smul_def, Arr3.mk.injEq, Prod.ext_iff]
  refine ⟨by rw [key], by rw [key], by norm_num [Arr3.mk.injEq]⟩

/-- C10 amended: the untouched-on-false contract holds for the line/plane
and segment/plane predicates, while for segment/box the output list is valid
only on `true` — on every `false` path it has been cleared to the empty
list (and segment/segment may overwrite the output with the supporting-line
intersection point, as the counterexample shows). -/
theorem C10_amended_frame_properties :
    (∀ P1 n1 P2 n2 P : Arr3,
      (intersectLinePlane P1 n1 P2 n2 P).1 = false →
      (intersectLinePlane P1 n1 P2 n2 P).2 = P) ∧
    (∀ Q1 Q2 P2 n2 P : Arr3,
      (intersectSegmentPlane Q1 Q2 P2 n2 P).1 = false →
      (intersectSegmentPlane Q1 Q2 P2 n2 P).2 = P) ∧
    (∀ (edgeOfBox : ℕ → Arr3 → Arr3 → Arr3 × Arr3) (V1 V2 A1 A2 : Arr3)
        (P0 : List Arr3),
      (intersectSegmentBox2D edgeOfBox V1 V2 A1 A2 P0).1 = false →
      (intersectSegmentBox2D edgeOfBox V1 V2 A1 A2 P0).2 = []) := by
  refine ⟨?_, ?_, ?_⟩
  · intro P1 n1 P2 n2 P h
    simp only [intersectLinePlane] at h ⊢
    split_ifs at h ⊢ <;> simp_all
  · intro Q1 Q2 P2 n2 P h
    simp only [intersectSegmentPlane] at h ⊢
    split_ifs at h ⊢ <;> simp_all
  · intro edgeOfBox V1 V2 A1 A2 P0 h
    simp only [intersectSegmentBox2D] at h ⊢
    split_ifs at h ⊢ with hc
    · rfl
    · exact segmentBoxLoop2D_false_no_push _ _ _ _ _ h

/-- Witness for the amended C10 statement at concrete rejecting inputs. -/
theorem C10_amended_frame_properties_witness :
    (intersectLinePlane ⟨0, 0, 0⟩ ⟨1, 0, 0⟩ ⟨0, 0, 0⟩ ⟨0, 1, 0⟩ ⟨5, 5, 5⟩).2
      = ⟨5, 5, 5⟩ ∧
    (intersectSegmentPlane ⟨0, 0, 0⟩ ⟨1, 0, 0⟩ ⟨0, 3, 0⟩ ⟨0, 1, 0⟩ ⟨6, 6, 6⟩).2
      = ⟨6, 6, 6⟩ ∧
    (intersectSegmentBox2D (fun _ _ _ => (⟨0, 0, 0⟩, ⟨0, 0, 0⟩)) ⟨5, 5, 0⟩ ⟨6, 5, 0⟩
      ⟨0, 0, 0⟩ ⟨1, 1, 1⟩ [⟨7, 7, 7⟩]).2 = [] :=
  ⟨C10_amended_frame_properties.1 _ _ _ _ _
     (by norm_num [intersectLinePlane, dotProduct, Arr3.sub_def, Arr3.smul_def]),
   C10_amended_frame_properties.2.1 _ _ _ _ _
     (by norm_num [intersectSegmentPlane, intersectLinePlane, dotProduct,
        norm2, ratSqrt, Arr3.sub_def, Arr3.smul_def]),
   C10_amended_frame_properties.2.2 _ _ _ _ _ _
     (by norm_num [intersectSegmentBox2D, computeAABBSegment, intersectBoxBox,
        Arr3.get, List.range_succ])⟩

/-- Witness for C8 at `P = (1,1,0)`, `Q0 = (0,0,0)`, `Q1 = (2,0,0)`. -/
theorem C8_projectPointSegment_closest_witness :
    (⟨0, 0, 0⟩ : Arr3) ≠ ⟨2, 0, 0⟩ ∧
    (0 ≤ (projectPointSegment ⟨1, 1, 0⟩ ⟨0, 0, 0⟩ ⟨2, 0, 0⟩).2.1 ∧
     0 ≤ (projectPointSegment ⟨1, 1, 0⟩ ⟨0, 0, 0⟩ ⟨2, 0, 0⟩).2.2 ∧
     (projectPointSegment ⟨1, 1, 0⟩ ⟨0, 0, 0⟩ ⟨2, 0, 0⟩).2.1 +
       (projectPointSegment ⟨1, 1, 0⟩ ⟨0, 0, 0⟩ ⟨2, 0, 0⟩).2.2 = 1 ∧
     (projectPointSegment ⟨1, 1, 0⟩ ⟨0, 0, 0⟩ ⟨2, 0, 0⟩).1 =
       (projectPointSegment ⟨1, 1, 0⟩ ⟨0, 0, 0⟩ ⟨2, 0, 0⟩).2.1 • (⟨0, 0, 0⟩ : Arr3) +
       (projectPointSegment ⟨1, 1, 0⟩ ⟨0, 0, 0⟩ ⟨2, 0, 0⟩).2.2 • (⟨2, 0, 0⟩ : Arr3) ∧
     ∀ s : ℚ, 0 ≤ s → s ≤ 1 →
       sqDist ⟨1, 1, 0⟩ (projectPointSegment ⟨1, 1, 0⟩ ⟨0, 0, 0⟩ ⟨2, 0, 0⟩).1 ≤
         sqDist ⟨1, 1, 0⟩ ((⟨0, 0, 0⟩ : Arr3) + s • ((⟨2, 0, 0⟩ : Arr3) - ⟨0, 0, 0⟩))) :=
  ⟨by decide, C8_projectPointSegment_closest ⟨1, 1, 0⟩ ⟨0, 0, 0⟩ ⟨2, 0, 0⟩ (by decide)⟩

end Bitpit
